import Mathlib

/-!
Verification development for the qBittorrent session orchestration core
(`src/base/bittorrent/session.h`).  The repository ships only the class
declaration; the behaviour of each operation is modelled from the design
document (`spec.md`), faithfully following its words, and the claims are
settled against these models.

Torrent identifiers are modelled as natural numbers, paths and names as
strings.
-/

namespace BitTorrent

abbrev TorrentID := Nat

/-! ## QueueManager

Modelled from the spec: the implementations of
`Session::topTorrentsQueuePos`, `bottomTorrentsQueuePos`,
`increaseTorrentsQueuePos` and `decreaseTorrentsQueuePos` live in the
missing `session.cpp`.  Per spec section 4.4 a queue state is a dense
total order on the queued torrents, modelled here as a list whose index
is the queue position.  `top` relocates the given IDs, keeping their
relative order, to the front, shifting the others back; `bottom` mirrors
this to the rear; `increase`/`decrease` move each selected ID one slot
toward the front/back, skipping over other selected IDs already at a
boundary, and every operation ends in a dense renumbering (automatic in
the index-is-position model). -/

/-- Modelled from the spec: `Session::topTorrentsQueuePos` (implementation
missing from src).  Selected torrents move to the front, preserving
relative order; the others shift back. -/
def topTorrentsQueuePos (ids q : List TorrentID) : List TorrentID :=
  q.filter (fun t => ids.contains t) ++ q.filter (fun t => !ids.contains t)

/-- Modelled from the spec: `Session::bottomTorrentsQueuePos`
(implementation missing from src).  Selected torrents move to the rear,
preserving relative order. -/
def bottomTorrentsQueuePos (ids q : List TorrentID) : List TorrentID :=
  q.filter (fun t => !ids.contains t) ++ q.filter (fun t => ids.contains t)

/-- Modelled from the spec: one pass moving every selected ID one slot
toward the front, skipping over selected IDs already blocked at the
boundary (so block-selected moves do not thrash into no-ops). -/
def promoteSelected (ids : List TorrentID) : List TorrentID → List TorrentID
  | [] => []
  | [x] => [x]
  | x :: y :: rest =>
    if ids.contains y && !ids.contains x then
      y :: promoteSelected ids (x :: rest)
    else
      x :: promoteSelected ids (y :: rest)
termination_by l => l.length

/-- Modelled from the spec: `Session::increaseTorrentsQueuePos`
(implementation missing from src). -/
def increaseTorrentsQueuePos (ids q : List TorrentID) : List TorrentID :=
  promoteSelected ids q

/-- Modelled from the spec: `Session::decreaseTorrentsQueuePos`
(implementation missing from src); the exact mirror of `increase`,
moving each selected ID one slot toward the back. -/
def decreaseTorrentsQueuePos (ids q : List TorrentID) : List TorrentID :=
  (promoteSelected ids q.reverse).reverse

/-- Queue-reordering operations of the public API, each carrying the
ordered set of torrent IDs it is applied to. -/
inductive QueueOp where
  | top (ids : List TorrentID)
  | bottom (ids : List TorrentID)
  | increase (ids : List TorrentID)
  | decrease (ids : List TorrentID)
deriving DecidableEq, Repr

/-- Dispatch of one queue operation on a queue state. -/
def applyQueueOp : QueueOp → List TorrentID → List TorrentID
  | .top ids, q => topTorrentsQueuePos ids q
  | .bottom ids, q => bottomTorrentsQueuePos ids q
  | .increase ids, q => increaseTorrentsQueuePos ids q
  | .decrease ids, q => decreaseTorrentsQueuePos ids q

/-- Sequential application of a list of queue operations. -/
def applyQueueOps (ops : List QueueOp) (q : List TorrentID) : List TorrentID :=
  ops.foldl (fun acc op => applyQueueOp op acc) q

theorem promoteSelected_perm (ids : List TorrentID) (q : List TorrentID) :
    (promoteSelected ids q).Perm q := by
  induction q using promoteSelected.induct ids with
  | case1 => simp [promoteSelected]
  | case2 x => simp [promoteSelected]
  | case3 x y rest h ih =>
    simp only [promoteSelected, h, if_true]
    exact (ih.cons y).trans (List.Perm.swap x y rest)
  | case4 x y rest h ih =>
    simp only [promoteSelected, h, if_false]
    exact ih.cons x

theorem applyQueueOp_perm (op : QueueOp) (q : List TorrentID) :
    (applyQueueOp op q).Perm q := by
  cases op with
  | top ids => exact List.filter_append_perm _ q
  | bottom ids =>
    exact (List.perm_append_comm).trans (List.filter_append_perm _ q)
  | increase ids => exact promoteSelected_perm ids q
  | decrease ids =>
    exact ((List.reverse_perm _).trans
      (promoteSelected_perm ids q.reverse)).trans (List.reverse_perm q)

theorem applyQueueOps_perm (ops : List QueueOp) (q : List TorrentID) :
    (applyQueueOps ops q).Perm q := by
  induction ops generalizing q with
  | nil => simp [applyQueueOps]
  | cons op ops ih =>
    exact (ih (applyQueueOp op q)).trans (applyQueueOp_perm op q)

/-- Mapping each element of a duplicate-free list to its own index gives
`[0, 1, ..., length - 1]`: positions are dense, zero-based and pairwise
distinct. -/
theorem map_indexOf_self_of_nodup (l : List TorrentID) (h : l.Nodup) :
    l.map (fun t => l.indexOf t) = List.range l.length := by
  induction l with
  | nil => simp
  | cons a l ih =>
    have hne : ∀ t ∈ l, t ≠ a := fun t ht => by
      intro hta
      exact (List.nodup_cons.mp h).1 (hta ▸ ht)
    have hmap : l.map (fun t => (a :: l).indexOf t)
        = l.map (fun t => l.indexOf t + 1) := by
      apply List.map_congr_left
      intro t ht
      exact List.indexOf_cons_ne l (fun hc => hne t ht hc.symm)
    have ihl := ih (List.nodup_cons.mp h).2
    simp only [List.map_cons, List.indexOf_cons_self, List.length_cons,
      List.range_succ_eq_map, hmap]
    refine congrArg (0 :: ·) ?_
    rw [ihl.symm, List.map_map]
    rfl

/-- C1: for every sequence of the queue operations `top`, `bottom`,
`increase`, `decrease` (each with an arbitrary ordered set of torrent
IDs) applied to a queue of N torrents, the result is a permutation of
the original queue, still duplicate-free, and the positions (indices)
of the queued torrents are exactly the dense zero-based range
`[0, N)` — each queued torrent having exactly one position.  The single
operation case is the instance `ops = [op]`. -/
theorem queue_ops_dense_permutation (ops : List QueueOp) (q : List TorrentID)
    (h : q.Nodup) :
    (applyQueueOps ops q).Perm q ∧ (applyQueueOps ops q).Nodup ∧
    (applyQueueOps ops q).map (fun t => (applyQueueOps ops q).indexOf t)
      = List.range q.length := by
  have hperm := applyQueueOps_perm ops q
  have hnodup : (applyQueueOps ops q).Nodup := hperm.nodup_iff.mpr h
  refine ⟨hperm, hnodup, ?_⟩
  rw [map_indexOf_self_of_nodup _ hnodup, hperm.length_eq]

/-- Witness for C1 at a concrete queue and operation sequence. -/
theorem queue_ops_dense_permutation_witness :
    (applyQueueOps [QueueOp.top [8], QueueOp.increase [3], QueueOp.bottom [5],
        QueueOp.decrease [3]] [5, 3, 8]).Perm [5, 3, 8] ∧
    (applyQueueOps [QueueOp.top [8], QueueOp.increase [3], QueueOp.bottom [5],
        QueueOp.decrease [3]] [5, 3, 8]).Nodup ∧
    (applyQueueOps [QueueOp.top [8], QueueOp.increase [3], QueueOp.bottom [5],
        QueueOp.decrease [3]] [5, 3, 8]).map
      (fun t => (applyQueueOps [QueueOp.top [8], QueueOp.increase [3],
        QueueOp.bottom [5], QueueOp.decrease [3]] [5, 3, 8]).indexOf t)
      = List.range ([5, 3, 8] : List TorrentID).length :=
  queue_ops_dense_permutation _ _ (by decide)

/-! ## Session life-cycle state

Modelled from the spec: the bodies of `Session::addTorrent`,
`Session::removeTorrent`, the alert handlers and the metadata-download
operations live in the missing `session.cpp`; only their declarations
and the four life-cycle containers (`m_torrents`, `m_loadingTorrents`,
`m_removingTorrents`, `m_downloadedMetadata`) appear in `session.h`.
The state and transitions below follow spec sections 4.2, 4.3, 4.5
and 5. -/

/-- Removal options of `Session::removeTorrent` (`session.h` lines
56-60). -/
inductive TorrentRemoveOption where
  | keepContent
  | removeContent
deriving DecidableEq, Repr

/-- Category options: optional save-path and download-path overrides
(spec section 3, `Category`). -/
structure CategoryOptions where
  savePath : Option String := none
  downloadPath : Option String := none
deriving DecidableEq, Repr

/-- Pending-removal record (`session.h` struct `RemovingTorrentData`),
extended per spec section 4.3 with the two independently timed
confirmation flags of the three-phase removal protocol. -/
structure RemovingTorrentData where
  name : String
  pathToRemove : String
  deleteOption : TorrentRemoveOption
  nativeRemoved : Bool
  contentRemoved : Bool
deriving DecidableEq, Repr

/-- Requests issued to the transfer engine (spec section 6); a remove
request carries the content-deletion flag. -/
inductive EngineRequest where
  | submitAdd (id : TorrentID)
  | submitRemove (id : TorrentID) (deleteContent : Bool)
deriving DecidableEq, Repr

/-- Domain events emitted to subscribers (spec section 6 and the
signal list of `session.h`). -/
inductive DomainEvent where
  | removalPending (id : TorrentID)
  | loadTorrentFailed (id : TorrentID)
  | metadataDownloaded (id : TorrentID)
  | torrentAdded (id : TorrentID)
  | removalFailed (id : TorrentID)
deriving DecidableEq, Repr

/-- Session state: the four life-cycle containers of `session.h`
(lines 901-906), the category/tag store, and append-only logs of the
engine requests issued and domain events emitted. -/
structure Session where
  torrents : List TorrentID := []
  loadingTorrents : List TorrentID := []
  removingTorrents : List (TorrentID × RemovingTorrentData) := []
  downloadedMetadata : List TorrentID := []
  subcategoriesEnabled : Bool := false
  categories : List (String × CategoryOptions) := []
  tags : List String := []
  requests : List EngineRequest := []
  events : List DomainEvent := []
deriving DecidableEq, Repr

/-- Torrent IDs having a pending-removal entry. -/
def removingIds (s : Session) : List TorrentID :=
  s.removingTorrents.map Prod.fst

/-- Recognizes an engine request that asks for deletion of the given
torrent's content. -/
def isContentDeletionFor (id : TorrentID) : EngineRequest → Bool
  | .submitRemove i d => i == id && d
  | _ => false

/-- Split a character list at every occurrence of the separator;
splitting the empty list yields one empty segment, matching
`String.splitOn`. -/
def splitSegs (sep : Char) : List Char → List (List Char)
  | [] => [[]]
  | c :: rest =>
    match splitSegs sep rest with
    | [] => [[c]]
    | seg :: segs =>
      if c == sep then [] :: seg :: segs else (c :: seg) :: segs

/-- Join segments with the category separator. -/
def joinSegs : List (List Char) → List Char
  | [] => []
  | [s] => s
  | s :: rest => s ++ '/' :: joinSegs rest

/-- Category name split into its path segments. -/
def splitCategory (name : String) : List String :=
  (splitSegs '/' name.data).map String.mk

/-- Category name assembled from path segments. -/
def joinCategory (segs : List String) : String :=
  String.mk (joinSegs (segs.map String.data))

/-- Modelled from the spec: `Session::isValidCategoryName`
(implementation missing from src).  A category name must be non-empty,
have no leading or trailing separator and no empty segment (spec
section 4.5); any of those defects shows up as an empty path segment. -/
def isValidCategoryName (name : String) : Bool :=
  name != "" && (splitCategory name).all (fun seg => seg != "")

/-- Modelled from the spec: `Session::parentCategoryName`
(implementation missing from src); the name with its last segment
removed, empty for a top-level category. -/
def parentCategoryName (category : String) : String :=
  joinCategory (splitCategory category).dropLast

/-- Non-empty initial runs of a segment list in ascending length, so
that the last one is the whole list. -/
def nonemptyInitialsAsc : List String → List (List String)
  | [] => []
  | seg :: rest => [seg] :: (nonemptyInitialsAsc rest).map (seg :: ·)

/-- Segment lists of a category and of each of its strict ancestors, in
order of decreasing depth. -/
def ancestorSegments (segs : List String) : List (List String) :=
  (nonemptyInitialsAsc segs).reverse

/-- Modelled from the spec: `Session::expandCategory` (implementation
missing from src); returns the category itself followed by each strict
ancestor in order of decreasing depth (spec section 4.5). -/
def expandCategory (category : String) : List String :=
  (ancestorSegments (splitCategory category)).map joinCategory

/-- Category-name lookup in the category store. -/
def hasCategory (s : Session) (name : String) : Bool :=
  s.categories.any (fun p => p.1 == name)

/-- Modelled from the spec: `Session::addCategory` (implementation
missing from src).  An invalid name, a duplicate, or a child whose
parent is absent while subcategory support is off, is rejected
synchronously with no state change (spec sections 3 and 7). -/
def addCategory (s : Session) (name : String) (opts : CategoryOptions) :
    Bool × Session :=
  if !isValidCategoryName name then (false, s)
  else if hasCategory s name then (false, s)
  else if parentCategoryName name != "" && !hasCategory s (parentCategoryName name)
      && !s.subcategoriesEnabled then (false, s)
  else (true, { s with categories := s.categories ++ [(name, opts)] })

/-- Modelled from the spec: `Session::addTag` (implementation missing
from src).  A duplicate tag is rejected synchronously with no state
change (spec section 7). -/
def addTag (s : Session) (t : String) : Bool × Session :=
  if s.tags.contains t then (false, s)
  else (true, { s with tags := s.tags ++ [t] })

/-- Modelled from the spec: `Session::addTorrent` (implementation
missing from src).  Re-adding an ID whose removal is pending is
rejected with a removal-in-progress condition; a known or loading ID is
likewise rejected; otherwise the ID enters the loading set and an add
request goes to the engine, superseding any metadata-only entry (spec
sections 3, 4.2 and 4.3). -/
def addTorrent (s : Session) (id : TorrentID) : Bool × Session :=
  if (removingIds s).contains id then (false, s)
  else if s.torrents.contains id || s.loadingTorrents.contains id then (false, s)
  else (true, { s with
    loadingTorrents := s.loadingTorrents ++ [id],
    downloadedMetadata := s.downloadedMetadata.filter (fun t => t != id),
    requests := s.requests ++ [.submitAdd id] })

/-- Modelled from the spec: `Session::removeTorrent` (implementation
missing from src).  Phase 1 of the three-phase removal protocol: hide
the torrent, record the pending-removal entry keyed by ID, emit the
removal-pending event and send the engine the remove request whose
content-deletion flag reflects the chosen option (spec section 4.3). -/
def removeTorrent (s : Session) (id : TorrentID) (opt : TorrentRemoveOption) :
    Bool × Session :=
  if s.torrents.contains id then
    (true, { s with
      torrents := s.torrents.filter (fun t => t != id),
      removingTorrents := s.removingTorrents
        ++ [(id, { name := "", pathToRemove := "",
                   deleteOption := opt, nativeRemoved := false,
                   contentRemoved := false })],
      requests := s.requests ++ [.submitRemove id (opt == .removeContent)],
      events := s.events ++ [.removalPending id] })
  else (false, s)

/-- Discard every pending-removal entry of the given torrent. -/
def eraseRemoving (l : List (TorrentID × RemovingTorrentData)) (id : TorrentID) :
    List (TorrentID × RemovingTorrentData) :=
  l.filter (fun p => p.1 != id)

/-- Record the native-removal confirmation on the given torrent's
pending-removal entry. -/
def markNativeRemoved (l : List (TorrentID × RemovingTorrentData))
    (id : TorrentID) : List (TorrentID × RemovingTorrentData) :=
  l.map (fun p =>
    if p.1 == id then (p.1, { p.2 with nativeRemoved := true }) else p)

/-- Record the content-deleted confirmation on the given torrent's
pending-removal entry. -/
def markContentRemoved (l : List (TorrentID × RemovingTorrentData))
    (id : TorrentID) : List (TorrentID × RemovingTorrentData) :=
  l.map (fun p =>
    if p.1 == id then (p.1, { p.2 with contentRemoved := true }) else p)

/-- Modelled from the spec: `Session::handleTorrentRemovedAlert`
(implementation missing from src).  Phase 2: the native-removal
confirmation; a keep-content entry (or one whose content deletion was
already confirmed) is discarded, otherwise the native confirmation is
recorded and the entry waits for the content confirmation (spec
section 4.3). -/
def handleTorrentRemovedAlert (s : Session) (id : TorrentID) : Session :=
  match s.removingTorrents.find? (fun p => p.1 == id) with
  | none => s
  | some entry =>
    if entry.2.deleteOption == .keepContent || entry.2.contentRemoved then
      { s with removingTorrents := eraseRemoving s.removingTorrents id }
    else
      { s with removingTorrents := markNativeRemoved s.removingTorrents id }

/-- Modelled from the spec: `Session::handleTorrentDeletedAlert`
(implementation missing from src).  Phase 3, success path: the
content-deleted confirmation, independently timed from phase 2; the
entry is discarded only when the native confirmation was already
observed (spec section 4.3). -/
def handleTorrentDeletedAlert (s : Session) (id : TorrentID) : Session :=
  match s.removingTorrents.find? (fun p => p.1 == id) with
  | none => s
  | some entry =>
    if entry.2.nativeRemoved then
      { s with removingTorrents := eraseRemoving s.removingTorrents id }
    else
      { s with removingTorrents := markContentRemoved s.removingTorrents id }

/-- Modelled from the spec: `Session::handleTorrentDeleteFailedAlert`
(implementation missing from src).  Phase 3, failure path: a deletion
failure finalizes the pending removal and reports it (spec
section 4.3). -/
def handleTorrentDeleteFailedAlert (s : Session) (id : TorrentID) : Session :=
  if (removingIds s).contains id then
    { s with
      removingTorrents := eraseRemoving s.removingTorrents id,
      events := s.events ++ [.removalFailed id] }
  else s

/-- Modelled from the spec: completion of an asynchronous load request;
the ID moves from the pending loading set into the registry (spec
section 4.2). -/
def handleLoadTorrentFinished (s : Session) (id : TorrentID) : Session :=
  if s.loadingTorrents.contains id then
    { s with
      loadingTorrents := s.loadingTorrents.filter (fun t => t != id),
      torrents := s.torrents ++ [id],
      events := s.events ++ [.torrentAdded id] }
  else s

/-- Modelled from the spec: a single torrent's load failure emits a
`loadTorrentFailed` event and excludes it from the registry (spec
section 4.2). -/
def handleLoadTorrentFailed (s : Session) (id : TorrentID) : Session :=
  if s.loadingTorrents.contains id then
    { s with
      loadingTorrents := s.loadingTorrents.filter (fun t => t != id),
      events := s.events ++ [.loadTorrentFailed id] }
  else s

/-- Modelled from the spec: `Session::downloadMetadata` (implementation
missing from src); starts a metadata-only fetch for an ID not present
in any life-cycle container (spec sections 3 and 4.1). -/
def downloadMetadata (s : Session) (id : TorrentID) : Bool × Session :=
  if s.downloadedMetadata.contains id || s.torrents.contains id
      || s.loadingTorrents.contains id || (removingIds s).contains id then
    (false, s)
  else (true, { s with downloadedMetadata := s.downloadedMetadata ++ [id] })

/-- Modelled from the spec: `Session::handleMetadataReceivedAlert`
(implementation missing from src); metadata arrival clears the pending
download and emits a metadata event (spec section 4.1). -/
def handleMetadataReceivedAlert (s : Session) (id : TorrentID) : Session :=
  if s.downloadedMetadata.contains id then
    { s with
      downloadedMetadata := s.downloadedMetadata.filter (fun t => t != id),
      events := s.events ++ [.metadataDownloaded id] }
  else s

/-- Modelled from the spec: `Session::cancelDownloadMetadata`
(implementation missing from src). -/
def cancelDownloadMetadata (s : Session) (id : TorrentID) : Session :=
  { s with downloadedMetadata := s.downloadedMetadata.filter (fun t => t != id) }

/-- Public operations and alert deliveries driving the session state. -/
inductive SessionEvent where
  | addTorrent (id : TorrentID)
  | removeTorrent (id : TorrentID) (opt : TorrentRemoveOption)
  | loadFinished (id : TorrentID)
  | loadFailed (id : TorrentID)
  | torrentRemovedAlert (id : TorrentID)
  | torrentDeletedAlert (id : TorrentID)
  | torrentDeleteFailedAlert (id : TorrentID)
  | downloadMetadata (id : TorrentID)
  | metadataReceivedAlert (id : TorrentID)
  | cancelDownloadMetadata (id : TorrentID)
  | addCategory (name : String) (opts : CategoryOptions)
  | addTag (t : String)
deriving DecidableEq, Repr

/-- One step of the session state machine. -/
def stepSession (s : Session) : SessionEvent → Session
  | .addTorrent id => (addTorrent s id).2
  | .removeTorrent id opt => (removeTorrent s id opt).2
  | .loadFinished id => handleLoadTorrentFinished s id
  | .loadFailed id => handleLoadTorrentFailed s id
  | .torrentRemovedAlert id => handleTorrentRemovedAlert s id
  | .torrentDeletedAlert id => handleTorrentDeletedAlert s id
  | .torrentDeleteFailedAlert id => handleTorrentDeleteFailedAlert s id
  | .downloadMetadata id => (downloadMetadata s id).2
  | .metadataReceivedAlert id => handleMetadataReceivedAlert s id
  | .cancelDownloadMetadata id => cancelDownloadMetadata s id
  | .addCategory name opts => (addCategory s name opts).2
  | .addTag t => (addTag s t).2

/-- Trace semantics: sequential application of session events. -/
def runSession (s : Session) (evs : List SessionEvent) : Session :=
  evs.foldl stepSession s

/-- Empty session, the state before any operation. -/
def initialSession : Session := {}

/-- C9: the category expansion function returns the category itself
followed by each strict ancestor in order of decreasing depth:
`expandCategory "a/b/c" = ["a/b/c", "a/b", "a"]`, and for a
single-segment name `expandCategory "a" = ["a"]`. -/
theorem expandCategory_spec_examples :
    expandCategory "a/b/c" = ["a/b/c", "a/b", "a"]
      ∧ expandCategory "a" = ["a"] := by
  exact ⟨rfl, rfl⟩

/-! ## Helper lemmas about the life-cycle containers -/

theorem mem_filter_ne (l : List TorrentID) (a b : TorrentID) :
    a ∈ l.filter (fun t => t != b) ↔ a ∈ l ∧ a ≠ b := by
  simp [List.mem_filter]

theorem mem_removingIds_erase (l : List (TorrentID × RemovingTorrentData))
    (a j : TorrentID) :
    a ∈ (eraseRemoving l j).map Prod.fst ↔ a ∈ l.map Prod.fst ∧ a ≠ j := by
  constructor
  · intro h
    rcases List.mem_map.mp h with ⟨p, hp, rfl⟩
    rcases List.mem_filter.mp hp with ⟨hpl, hpj⟩
    exact ⟨List.mem_map.mpr ⟨p, hpl, rfl⟩, by simpa using hpj⟩
  · intro ⟨h, hne⟩
    rcases List.mem_map.mp h with ⟨p, hp, rfl⟩
    exact List.mem_map.mpr ⟨p, List.mem_filter.mpr ⟨hp, by simpa using hne⟩, rfl⟩

theorem removingIds_markNativeRemoved
    (l : List (TorrentID × RemovingTorrentData)) (j : TorrentID) :
    (markNativeRemoved l j).map Prod.fst = l.map Prod.fst := by
  rw [markNativeRemoved, List.map_map]
  apply List.map_congr_left
  intro p _
  by_cases hp : p.1 = j <;> simp [hp]

theorem removingIds_markContentRemoved
    (l : List (TorrentID × RemovingTorrentData)) (j : TorrentID) :
    (markContentRemoved l j).map Prod.fst = l.map Prod.fst := by
  rw [markContentRemoved, List.map_map]
  apply List.map_congr_left
  intro p _
  by_cases hp : p.1 = j <;> simp [hp]

/-- C6: while a torrent ID has a pending-removal entry, `addTorrent`
for that same ID is rejected (returns false) and registers nothing:
the whole session state is left unchanged. -/
theorem addTorrent_rejected_while_removal_pending (s : Session)
    (id : TorrentID) (h : id ∈ removingIds s) :
    addTorrent s id = (false, s) := by
  simp [addTorrent, List.contains, h]

/-- Witness for C6 at a concrete pending-removal state. -/
theorem addTorrent_rejected_while_removal_pending_witness :
    addTorrent
      { initialSession with removingTorrents :=
          [(1, { name := "t", pathToRemove := "p",
                 deleteOption := TorrentRemoveOption.removeContent,
                 nativeRemoved := false, contentRemoved := false })] } 1
      = (false,
        { initialSession with removingTorrents :=
          [(1, { name := "t", pathToRemove := "p",
                 deleteOption := TorrentRemoveOption.removeContent,
                 nativeRemoved := false, contentRemoved := false })] }) :=
  addTorrent_rejected_while_removal_pending _ _ (by decide)

/-- C7: a validation error is rejected synchronously with result
`false` and the entire session state unchanged: an invalid category
name passed to `addCategory` of any session, and an already-present tag
passed to `addTag` of any session; each half carries only its own
hypothesis. -/
theorem validation_errors_rejected_atomically :
    (∀ (s : Session) (name : String) (opts : CategoryOptions),
        isValidCategoryName name = false →
        addCategory s name opts = (false, s))
      ∧ (∀ (s : Session) (t : String), t ∈ s.tags →
          addTag s t = (false, s)) := by
  constructor
  · intro s name opts hname
    simp [addCategory, hname]
  · intro s t htag
    simp [addTag, List.contains, htag]

/-- Witness for C7: a name with a leading separator rejected at the
initial session (no stored tags needed), and a duplicate tag rejected
at a session already holding it. -/
theorem validation_errors_rejected_atomically_witness :
    addCategory initialSession "/bad" {} = (false, initialSession)
      ∧ addTag { initialSession with tags := ["movies"] } "movies"
        = (false, { initialSession with tags := ["movies"] }) :=
  ⟨validation_errors_rejected_atomically.1 initialSession "/bad" {}
      (by decide),
    validation_errors_rejected_atomically.2
      { initialSession with tags := ["movies"] } "movies" (by decide)⟩

/-! ## Removal-protocol lemmas (claim C2) -/

theorem removingTorrents_addTorrent (s : Session) (j : TorrentID) :
    ((addTorrent s j).2).removingTorrents = s.removingTorrents := by
  simp only [addTorrent]
  split_ifs <;> rfl

theorem removingTorrents_loadFinished (s : Session) (j : TorrentID) :
    (handleLoadTorrentFinished s j).removingTorrents = s.removingTorrents := by
  simp only [handleLoadTorrentFinished]
  split_ifs <;> rfl

theorem removingTorrents_loadFailed (s : Session) (j : TorrentID) :
    (handleLoadTorrentFailed s j).removingTorrents = s.removingTorrents := by
  simp only [handleLoadTorrentFailed]
  split_ifs <;> rfl

theorem removingTorrents_downloadMetadata (s : Session) (j : TorrentID) :
    ((downloadMetadata s j).2).removingTorrents = s.removingTorrents := by
  simp only [downloadMetadata]
  split_ifs <;> rfl

theorem removingTorrents_metadataReceived (s : Session) (j : TorrentID) :
    (handleMetadataReceivedAlert s j).removingTorrents
      = s.removingTorrents := by
  simp only [handleMetadataReceivedAlert]
  split_ifs <;> rfl

theorem removingTorrents_cancelDownloadMetadata (s : Session) (j : TorrentID) :
    (cancelDownloadMetadata s j).removingTorrents = s.removingTorrents := rfl

theorem removingTorrents_addCategory (s : Session) (name : String)
    (opts : CategoryOptions) :
    ((addCategory s name opts).2).removingTorrents = s.removingTorrents := by
  simp only [addCategory]
  split_ifs <;> rfl

theorem removingTorrents_addTag (s : Session) (t : String) :
    ((addTag s t).2).removingTorrents = s.removingTorrents := by
  simp only [addTag]
  split_ifs <;> rfl

theorem mem_removingIds_removeTorrent (s : Session) (j : TorrentID)
    (opt : TorrentRemoveOption) (id : TorrentID) (h : id ∈ removingIds s) :
    id ∈ removingIds ((removeTorrent s j opt).2) := by
  simp only [removeTorrent]
  split_ifs
  · simp only [removingIds, List.map_append]
    exact List.mem_append_left _ h
  · exact h

theorem removedAlert_discard_char (s : Session) (j id : TorrentID)
    (hin : id ∈ removingIds s)
    (hout : id ∉ removingIds (handleTorrentRemovedAlert s j)) :
    id = j ∧ ∃ d, (id, d) ∈ s.removingTorrents
      ∧ (d.deleteOption = TorrentRemoveOption.keepContent
          ∨ d.contentRemoved = true) := by
  unfold handleTorrentRemovedAlert at hout
  split at hout
  · exact absurd hin hout
  · next entry hfind =>
    split_ifs at hout with hopt
    · have hij : id = j := by
        by_contra hne
        exact hout ((mem_removingIds_erase _ _ _).mpr ⟨hin, hne⟩)
      subst hij
      have hmem := List.mem_of_find?_eq_some hfind
      have hkey : entry.1 = id := by simpa using List.find?_some hfind
      refine ⟨rfl, entry.2, ?_, by simpa using hopt⟩
      rw [← hkey]
      exact hmem
    · refine absurd ?_ hout
      show id ∈ (markNativeRemoved s.removingTorrents j).map Prod.fst
      rw [removingIds_markNativeRemoved]
      exact hin

theorem deletedAlert_discard_char (s : Session) (j id : TorrentID)
    (hin : id ∈ removingIds s)
    (hout : id ∉ removingIds (handleTorrentDeletedAlert s j)) :
    id = j ∧ ∃ d, (id, d) ∈ s.removingTorrents ∧ d.nativeRemoved = true := by
  unfold handleTorrentDeletedAlert at hout
  split at hout
  · exact absurd hin hout
  · next entry hfind =>
    split_ifs at hout with hopt
    · have hij : id = j := by
        by_contra hne
        exact hout ((mem_removingIds_erase _ _ _).mpr ⟨hin, hne⟩)
      subst hij
      have hmem := List.mem_of_find?_eq_some hfind
      have hkey : entry.1 = id := by simpa using List.find?_some hfind
      refine ⟨rfl, entry.2, ?_, hopt⟩
      rw [← hkey]
      exact hmem
    · refine absurd ?_ hout
      show id ∈ (markContentRemoved s.removingTorrents j).map Prod.fst
      rw [removingIds_markContentRemoved]
      exact hin

theorem deleteFailedAlert_discard_char (s : Session) (j id : TorrentID)
    (hin : id ∈ removingIds s)
    (hout : id ∉ removingIds (handleTorrentDeleteFailedAlert s j)) :
    id = j := by
  unfold handleTorrentDeleteFailedAlert at hout
  split_ifs at hout with hc
  · by_contra hne
    exact hout ((mem_removingIds_erase _ _ _).mpr ⟨hin, hne⟩)
  · exact absurd hin hout

/-- C2: (1) removal with `keepContent` issues no content-deletion
request for the torrent; (2) removal with `removeContent` of a
registered torrent always issues one; (3) under any session event, a
pending-removal entry disappears only on the matching native-removal
confirmation (with content deletion already confirmed or not requested),
the matching content-deleted confirmation (with the native removal
already confirmed), or a deletion-failure alert — never earlier. -/
theorem removal_protocol_correct :
    (∀ (s : Session) (id : TorrentID) (r : EngineRequest),
        r ∈ ((removeTorrent s id TorrentRemoveOption.keepContent).2).requests →
        r ∈ s.requests ∨ isContentDeletionFor id r = false)
    ∧ (∀ (s : Session) (id : TorrentID), id ∈ s.torrents →
        ∃ r ∈ ((removeTorrent s id
            TorrentRemoveOption.removeContent).2).requests,
          isContentDeletionFor id r = true)
    ∧ (∀ (s : Session) (e : SessionEvent) (id : TorrentID),
        id ∈ removingIds s → id ∉ removingIds (stepSession s e) →
        (e = SessionEvent.torrentRemovedAlert id
            ∧ ∃ d, (id, d) ∈ s.removingTorrents
              ∧ (d.deleteOption = TorrentRemoveOption.keepContent
                  ∨ d.contentRemoved = true))
          ∨ (e = SessionEvent.torrentDeletedAlert id
              ∧ ∃ d, (id, d) ∈ s.removingTorrents ∧ d.nativeRemoved = true)
          ∨ e = SessionEvent.torrentDeleteFailedAlert id) := by
  refine ⟨?_, ?_, ?_⟩
  · intro s id r hr
    unfold removeTorrent at hr
    split_ifs at hr
    · rcases List.mem_append.mp hr with hl | hr1
      · exact Or.inl hl
      · right
        rcases List.mem_singleton.mp hr1 with rfl
        simp [isContentDeletionFor]
    · exact Or.inl hr
  · intro s id h
    unfold removeTorrent
    split_ifs with hc
    · refine ⟨EngineRequest.submitRemove id true, ?_, by simp [isContentDeletionFor]⟩
      exact List.mem_append_right _ (by simp)
    · exact absurd h (by simpa [List.contains] using hc)
  · intro s e id hin hout
    cases e with
    | addTorrent j =>
      refine absurd ?_ hout
      show id ∈ ((addTorrent s j).2).removingTorrents.map Prod.fst
      rw [removingTorrents_addTorrent]
      exact hin
    | removeTorrent j opt =>
      exact absurd (mem_removingIds_removeTorrent s j opt id hin) hout
    | loadFinished j =>
      refine absurd ?_ hout
      show id ∈ (handleLoadTorrentFinished s j).removingTorrents.map Prod.fst
      rw [removingTorrents_loadFinished]
      exact hin
    | loadFailed j =>
      refine absurd ?_ hout
      show id ∈ (handleLoadTorrentFailed s j).removingTorrents.map Prod.fst
      rw [removingTorrents_loadFailed]
      exact hin
    | torrentRemovedAlert j =>
      rcases removedAlert_discard_char s j id hin hout with ⟨rfl, d, hd, hopt⟩
      exact Or.inl ⟨rfl, d, hd, hopt⟩
    | torrentDeletedAlert j =>
      rcases deletedAlert_discard_char s j id hin hout with ⟨rfl, d, hd, hnat⟩
      exact Or.inr (Or.inl ⟨rfl, d, hd, hnat⟩)
    | torrentDeleteFailedAlert j =>
      rcases deleteFailedAlert_discard_char s j id hin hout with rfl
      exact Or.inr (Or.inr rfl)
    | downloadMetadata j =>
      refine absurd ?_ hout
      show id ∈ ((downloadMetadata s j).2).removingTorrents.map Prod.fst
      rw [removingTorrents_downloadMetadata]
      exact hin
    | metadataReceivedAlert j =>
      refine absurd ?_ hout
      show id ∈ (handleMetadataReceivedAlert s j).removingTorrents.map Prod.fst
      rw [removingTorrents_metadataReceived]
      exact hin
    | cancelDownloadMetadata j =>
      refine absurd ?_ hout
      show id ∈ (cancelDownloadMetadata s j).removingTorrents.map Prod.fst
      rw [removingTorrents_cancelDownloadMetadata]
      exact hin
    | addCategory name opts =>
      refine absurd ?_ hout
      show id ∈ ((addCategory s name opts).2).removingTorrents.map Prod.fst
      rw [removingTorrents_addCategory]
      exact hin
    | addTag t =>
      refine absurd ?_ hout
      show id ∈ ((addTag s t).2).removingTorrents.map Prod.fst
      rw [removingTorrents_addTag]
      exact hin

/-- Witness for C2: each conjunct applied at a concrete state — a
keep-content removal of torrent 1, a remove-content removal of
torrent 1, and the native confirmation discarding a keep-content
pending entry. -/
theorem removal_protocol_correct_witness :
    (EngineRequest.submitRemove 1 false
        ∈ ({ initialSession with torrents := [1] } : Session).requests
      ∨ isContentDeletionFor 1 (EngineRequest.submitRemove 1 false) = false)
    ∧ (∃ r ∈ ((removeTorrent { initialSession with torrents := [1] } 1
          TorrentRemoveOption.removeContent).2).requests,
        isContentDeletionFor 1 r = true)
    ∧ ((SessionEvent.torrentRemovedAlert 1 = SessionEvent.torrentRemovedAlert 1
          ∧ ∃ d, ((1 : TorrentID), d)
              ∈ ({ initialSession with removingTorrents :=
                  [(1, { name := "t", pathToRemove := "p",
                         deleteOption := TorrentRemoveOption.keepContent,
                         nativeRemoved := false,
                         contentRemoved := false })] } : Session).removingTorrents
            ∧ (d.deleteOption = TorrentRemoveOption.keepContent
                ∨ d.contentRemoved = true))
        ∨ (SessionEvent.torrentRemovedAlert 1 = SessionEvent.torrentDeletedAlert 1
            ∧ ∃ d, ((1 : TorrentID), d)
                ∈ ({ initialSession with removingTorrents :=
                    [(1, { name := "t", pathToRemove := "p",
                           deleteOption := TorrentRemoveOption.keepContent,
                           nativeRemoved := false,
                           contentRemoved := false })] } : Session).removingTorrents
              ∧ d.nativeRemoved = true)
        ∨ SessionEvent.torrentRemovedAlert 1
            = SessionEvent.torrentDeleteFailedAlert 1) :=
  ⟨removal_protocol_correct.1 { initialSession with torrents := [1] } 1
      (EngineRequest.submitRemove 1 false) (by decide),
    removal_protocol_correct.2.1 { initialSession with torrents := [1] } 1
      (by decide),
    removal_protocol_correct.2.2
      { initialSession with removingTorrents :=
          [(1, { name := "t", pathToRemove := "p",
                 deleteOption := TorrentRemoveOption.keepContent,
                 nativeRemoved := false, contentRemoved := false })] }
      (SessionEvent.torrentRemovedAlert 1) 1 (by decide) (by decide)⟩

/-! ## Life-cycle disjointness (claim C10) -/

/-- A torrent ID lives in at most one of the four life-cycle
containers: registry, loading set, pending-removal map and
pending-metadata set. -/
def LifecycleDisjoint (s : Session) : Prop :=
  (∀ id, id ∈ s.torrents → id ∉ s.loadingTorrents)
  ∧ (∀ id, id ∈ s.torrents → id ∉ removingIds s)
  ∧ (∀ id, id ∈ s.torrents → id ∉ s.downloadedMetadata)
  ∧ (∀ id, id ∈ s.loadingTorrents → id ∉ removingIds s)
  ∧ (∀ id, id ∈ s.loadingTorrents → id ∉ s.downloadedMetadata)
  ∧ (∀ id, id ∈ removingIds s → id ∉ s.downloadedMetadata)

/-- Pairwise disjointness is inherited when every container only
shrinks. -/
theorem LifecycleDisjoint.mono (s t : Session)
    (ht : ∀ id, id ∈ t.torrents → id ∈ s.torrents)
    (hl : ∀ id, id ∈ t.loadingTorrents → id ∈ s.loadingTorrents)
    (hr : ∀ id, id ∈ removingIds t → id ∈ removingIds s)
    (hm : ∀ id, id ∈ t.downloadedMetadata → id ∈ s.downloadedMetadata)
    (h : LifecycleDisjoint s) : LifecycleDisjoint t := by
  obtain ⟨h1, h2, h3, h4, h5, h6⟩ := h
  refine ⟨?_, ?_, ?_, ?_, ?_, ?_⟩
  · exact fun id hid hc => h1 id (ht id hid) (hl id hc)
  · exact fun id hid hc => h2 id (ht id hid) (hr id hc)
  · exact fun id hid hc => h3 id (ht id hid) (hm id hc)
  · exact fun id hid hc => h4 id (hl id hid) (hr id hc)
  · exact fun id hid hc => h5 id (hl id hid) (hm id hc)
  · exact fun id hid hc => h6 id (hr id hid) (hm id hc)

theorem disjoint_removedAlert (s : Session) (j : TorrentID)
    (h : LifecycleDisjoint s) :
    LifecycleDisjoint (handleTorrentRemovedAlert s j) := by
  unfold handleTorrentRemovedAlert
  split
  · exact h
  · split_ifs
    · refine LifecycleDisjoint.mono s _ (fun id hid => hid) (fun id hid => hid)
        ?_ (fun id hid => hid) h
      exact fun id hid => ((mem_removingIds_erase _ _ _).mp hid).1
    · refine LifecycleDisjoint.mono s _ (fun id hid => hid) (fun id hid => hid)
        ?_ (fun id hid => hid) h
      intro id hid
      have hid2 : id ∈ (markNativeRemoved s.removingTorrents j).map Prod.fst :=
        hid
      rwa [removingIds_markNativeRemoved] at hid2

theorem disjoint_deletedAlert (s : Session) (j : TorrentID)
    (h : LifecycleDisjoint s) :
    LifecycleDisjoint (handleTorrentDeletedAlert s j) := by
  unfold handleTorrentDeletedAlert
  split
  · exact h
  · split_ifs
    · refine LifecycleDisjoint.mono s _ (fun id hid => hid) (fun id hid => hid)
        ?_ (fun id hid => hid) h
      exact fun id hid => ((mem_removingIds_erase _ _ _).mp hid).1
    · refine LifecycleDisjoint.mono s _ (fun id hid => hid) (fun id hid => hid)
        ?_ (fun id hid => hid) h
      intro id hid
      have hid2 : id ∈ (markContentRemoved s.removingTorrents j).map Prod.fst :=
        hid
      rwa [removingIds_markContentRemoved] at hid2

theorem disjoint_deleteFailedAlert (s : Session) (j : TorrentID)
    (h : LifecycleDisjoint s) :
    LifecycleDisjoint (handleTorrentDeleteFailedAlert s j) := by
  unfold handleTorrentDeleteFailedAlert
  split_ifs
  · refine LifecycleDisjoint.mono s _ (fun id hid => hid) (fun id hid => hid)
      ?_ (fun id hid => hid) h
    exact fun id hid => ((mem_removingIds_erase _ _ _).mp hid).1
  · exact h

theorem disjoint_loadFailed (s : Session) (j : TorrentID)
    (h : LifecycleDisjoint s) :
    LifecycleDisjoint (handleLoadTorrentFailed s j) := by
  unfold handleLoadTorrentFailed
  split_ifs
  · refine LifecycleDisjoint.mono s _ (fun id hid => hid) ?_
      (fun id hid => hid) (fun id hid => hid) h
    exact fun id hid => ((mem_filter_ne _ _ _).mp hid).1
  · exact h

theorem disjoint_metadataReceived (s : Session) (j : TorrentID)
    (h : LifecycleDisjoint s) :
    LifecycleDisjoint (handleMetadataReceivedAlert s j) := by
  unfold handleMetadataReceivedAlert
  split_ifs
  · refine LifecycleDisjoint.mono s _ (fun id hid => hid) (fun id hid => hid)
      (fun id hid => hid) ?_ h
    exact fun id hid => ((mem_filter_ne _ _ _).mp hid).1
  · exact h

theorem disjoint_cancelDownloadMetadata (s : Session) (j : TorrentID)
    (h : LifecycleDisjoint s) :
    LifecycleDisjoint (cancelDownloadMetadata s j) := by
  refine LifecycleDisjoint.mono s _ (fun id hid => hid) (fun id hid => hid)
    (fun id hid => hid) ?_ h
  exact fun id hid => ((mem_filter_ne _ _ _).mp hid).1

theorem disjoint_addCategory (s : Session) (name : String)
    (opts : CategoryOptions) (h : LifecycleDisjoint s) :
    LifecycleDisjoint ((addCategory s name opts).2) := by
  unfold addCategory
  split_ifs <;>
    exact LifecycleDisjoint.mono s _ (fun id hid => hid) (fun id hid => hid)
      (fun id hid => hid) (fun id hid => hid) h

theorem disjoint_addTag (s : Session) (t : String) (h : LifecycleDisjoint s) :
    LifecycleDisjoint ((addTag s t).2) := by
  unfold addTag
  split_ifs <;>
    exact LifecycleDisjoint.mono s _ (fun id hid => hid) (fun id hid => hid)
      (fun id hid => hid) (fun id hid => hid) h

theorem disjoint_addTorrent (s : Session) (j : TorrentID)
    (h : LifecycleDisjoint s) : LifecycleDisjoint ((addTorrent s j).2) := by
  unfold addTorrent
  split_ifs with hrem hknown
  · exact h
  · exact h
  · obtain ⟨h1, h2, h3, h4, h5, h6⟩ := h
    have hj_rem : j ∉ removingIds s := by
      simpa [List.contains] using hrem
    have hj_tor : j ∉ s.torrents ∧ j ∉ s.loadingTorrents := by
      simpa [List.contains, not_or] using hknown
    refine ⟨?_, h2, ?_, ?_, ?_, ?_⟩
    · intro id hid hc
      rcases List.mem_append.mp hc with hc1 | hc1
      · exact h1 id hid hc1
      · rcases List.mem_singleton.mp hc1 with rfl
        exact hj_tor.1 hid
    · intro id hid hc
      exact h3 id hid ((mem_filter_ne _ _ _).mp hc).1
    · intro id hid hc
      rcases List.mem_append.mp hid with hid1 | hid1
      · exact h4 id hid1 hc
      · rcases List.mem_singleton.mp hid1 with rfl
        exact hj_rem hc
    · intro id hid hc
      rcases List.mem_append.mp hid with hid1 | hid1
      · exact h5 id hid1 ((mem_filter_ne _ _ _).mp hc).1
      · rcases List.mem_singleton.mp hid1 with rfl
        exact ((mem_filter_ne _ _ _).mp hc).2 rfl
    · intro id hid hc
      exact h6 id hid ((mem_filter_ne _ _ _).mp hc).1

theorem mem_removingIds_append (l : List (TorrentID × RemovingTorrentData))
    (p : TorrentID × RemovingTorrentData) (id : TorrentID)
    (h : id ∈ (l ++ [p]).map Prod.fst) : id ∈ l.map Prod.fst ∨ id = p.1 := by
  rw [List.map_append] at h
  rcases List.mem_append.mp h with h1 | h1
  · exact Or.inl h1
  · right
    simpa using h1

theorem disjoint_removeTorrent (s : Session) (j : TorrentID)
    (opt : TorrentRemoveOption) (h : LifecycleDisjoint s) :
    LifecycleDisjoint ((removeTorrent s j opt).2) := by
  unfold removeTorrent
  split_ifs with hc
  · obtain ⟨h1, h2, h3, h4, h5, h6⟩ := h
    have hjt : j ∈ s.torrents := by simpa [List.contains] using hc
    refine ⟨?_, ?_, ?_, ?_, h5, ?_⟩
    · intro id hid hc1
      exact h1 id ((mem_filter_ne _ _ _).mp hid).1 hc1
    · intro id hid hc1
      obtain ⟨hidt, hidj⟩ := (mem_filter_ne _ _ _).mp hid
      rcases mem_removingIds_append _ _ _ hc1 with hx | hx
      · exact h2 id hidt hx
      · exact hidj hx
    · intro id hid hc1
      exact h3 id ((mem_filter_ne _ _ _).mp hid).1 hc1
    · intro id hid hc1
      rcases mem_removingIds_append _ _ _ hc1 with hx | hx
      · exact h4 id hid hx
      · subst hx
        exact h1 _ hjt hid
    · intro id hid hc1
      rcases mem_removingIds_append _ _ _ hid with hx | hx
      · exact h6 id hx hc1
      · subst hx
        exact h3 _ hjt hc1
  · exact h

theorem disjoint_loadFinished (s : Session) (j : TorrentID)
    (h : LifecycleDisjoint s) :
    LifecycleDisjoint (handleLoadTorrentFinished s j) := by
  unfold handleLoadTorrentFinished
  split_ifs with hc
  · obtain ⟨h1, h2, h3, h4, h5, h6⟩ := h
    have hjl : j ∈ s.loadingTorrents := by simpa [List.contains] using hc
    refine ⟨?_, ?_, ?_, ?_, ?_, h6⟩
    · intro id hid hc1
      obtain ⟨hl1, hl2⟩ := (mem_filter_ne _ _ _).mp hc1
      rcases List.mem_append.mp hid with hx | hx
      · exact h1 id hx hl1
      · rcases List.mem_singleton.mp hx with rfl
        exact hl2 rfl
    · intro id hid hc1
      rcases List.mem_append.mp hid with hx | hx
      · exact h2 id hx hc1
      · rcases List.mem_singleton.mp hx with rfl
        exact h4 id hjl hc1
    · intro id hid hc1
      rcases List.mem_append.mp hid with hx | hx
      · exact h3 id hx hc1
      · rcases List.mem_singleton.mp hx with rfl
        exact h5 id hjl hc1
    · intro id hid hc1
      exact h4 id ((mem_filter_ne _ _ _).mp hid).1 hc1
    · intro id hid hc1
      exact h5 id ((mem_filter_ne _ _ _).mp hid).1 hc1
  · exact h

theorem disjoint_downloadMetadata (s : Session) (j : TorrentID)
    (h : LifecycleDisjoint s) :
    LifecycleDisjoint ((downloadMetadata s j).2) := by
  unfold downloadMetadata
  split_ifs with hc
  · exact h
  · obtain ⟨h1, h2, h3, h4, h5, h6⟩ := h
    have hj : ((j ∉ s.downloadedMetadata ∧ j ∉ s.torrents)
        ∧ j ∉ s.loadingTorrents) ∧ j ∉ removingIds s := by
      simpa [List.contains, not_or] using hc
    refine ⟨h1, h2, ?_, h4, ?_, ?_⟩
    · intro id hid hc1
      rcases List.mem_append.mp hc1 with hx | hx
      · exact h3 id hid hx
      · rcases List.mem_singleton.mp hx with rfl
        exact hj.1.1.2 hid
    · intro id hid hc1
      rcases List.mem_append.mp hc1 with hx | hx
      · exact h5 id hid hx
      · rcases List.mem_singleton.mp hx with rfl
        exact hj.1.2 hid
    · intro id hid hc1
      rcases List.mem_append.mp hc1 with hx | hx
      · exact h6 id hid hx
      · rcases List.mem_singleton.mp hx with rfl
        exact hj.2 hid

theorem disjoint_step (s : Session) (e : SessionEvent)
    (h : LifecycleDisjoint s) : LifecycleDisjoint (stepSession s e) := by
  cases e with
  | addTorrent j => exact disjoint_addTorrent s j h
  | removeTorrent j opt => exact disjoint_removeTorrent s j opt h
  | loadFinished j => exact disjoint_loadFinished s j h
  | loadFailed j => exact disjoint_loadFailed s j h
  | torrentRemovedAlert j => exact disjoint_removedAlert s j h
  | torrentDeletedAlert j => exact disjoint_deletedAlert s j h
  | torrentDeleteFailedAlert j => exact disjoint_deleteFailedAlert s j h
  | downloadMetadata j => exact disjoint_downloadMetadata s j h
  | metadataReceivedAlert j => exact disjoint_metadataReceived s j h
  | cancelDownloadMetadata j => exact disjoint_cancelDownloadMetadata s j h
  | addCategory name opts => exact disjoint_addCategory s name opts h
  | addTag t => exact disjoint_addTag s t h

theorem disjoint_runSession (evs : List SessionEvent) (s : Session)
    (h : LifecycleDisjoint s) : LifecycleDisjoint (runSession s evs) := by
  induction evs generalizing s with
  | nil => exact h
  | cons e evs ih => exact ih (stepSession s e) (disjoint_step s e h)

theorem disjoint_initialSession : LifecycleDisjoint initialSession := by
  refine ⟨?_, ?_, ?_, ?_, ?_, ?_⟩ <;> intro id hid <;> cases hid

/-- C10: in every session state reachable from the empty session by any
sequence of public operations and alert deliveries, a torrent ID
appears in at most one of the four life-cycle containers — registry,
loading set, pending-removal map and pending-metadata set; every
operation and alert handler preserves this disjointness. -/
theorem lifecycle_containers_disjoint (evs : List SessionEvent) :
    LifecycleDisjoint (runSession initialSession evs) :=
  disjoint_runSession evs initialSession disjoint_initialSession

/-! ## Startup resume-data processing (claim C5)

Modelled from the spec: `Session::processNextResumeData` (declared at
`session.h` line 713, implementation missing from src).  Startup walks
the persisted resume entries one by one; a readable entry is registered,
an unreadable (corrupted) one emits a `loadTorrentFailed` event and is
skipped without blocking the rest (spec sections 4.2 and 7). -/

/-- Parameters recovered from one readable resume entry, reduced to the
torrent ID it rehydrates. -/
abbrev LoadTorrentParams := TorrentID

/-- Persisted resume entry: `none` stands for an unreadable (corrupted)
entry, `some p` for a readable one. -/
abbrev ResumeEntry := Option LoadTorrentParams

/-- Modelled from the spec: sequential processing of the resume
entries; returns the registered torrents in order and the number of
`loadTorrentFailed` events emitted. -/
def processNextResumeData : List ResumeEntry → List LoadTorrentParams × Nat
  | [] => ([], 0)
  | none :: rest =>
    let r := processNextResumeData rest
    (r.1, r.2 + 1)
  | some p :: rest =>
    let r := processNextResumeData rest
    (p :: r.1, r.2)

theorem processNextResumeData_registered (entries : List ResumeEntry) :
    (processNextResumeData entries).1 = entries.filterMap (fun x => x) := by
  induction entries with
  | nil => rfl
  | cons e rest ih =>
    cases e <;> simp [processNextResumeData, ih]

theorem processNextResumeData_failures (entries : List ResumeEntry) :
    (processNextResumeData entries).2 = entries.count none := by
  induction entries with
  | nil => rfl
  | cons e rest ih =>
    cases e <;> simp [processNextResumeData, ih, List.count_cons]

theorem processNextResumeData_length (entries : List ResumeEntry) :
    (processNextResumeData entries).1.length
      = entries.length - entries.count none := by
  induction entries with
  | nil => rfl
  | cons e rest ih =>
    cases e with
    | none =>
      simp [processNextResumeData, ih, List.count_cons]
    | some p =>
      have hle : rest.count none ≤ rest.length := List.count_le_length _ _
      simp [processNextResumeData, ih, List.count_cons]
      omega

/-- C5: a startup run over K persisted resume entries of which exactly
one is corrupted registers exactly K - 1 torrents and emits exactly one
`loadTorrentFailed` event; the failing entry does not block the rest
(every readable entry is registered, in order). -/
theorem startup_one_corrupted_entry (entries : List ResumeEntry) (K : Nat)
    (hlen : entries.length = K) (hone : entries.count none = 1) :
    (processNextResumeData entries).1.length = K - 1
      ∧ (processNextResumeData entries).2 = 1
      ∧ (processNextResumeData entries).1
          = entries.filterMap (fun x => x) := by
  refine ⟨?_, ?_, processNextResumeData_registered entries⟩
  · rw [processNextResumeData_length, hlen, hone]
  · rw [processNextResumeData_failures, hone]

/-- Witness for C5 at a concrete entry list with one corrupted entry. -/
theorem startup_one_corrupted_entry_witness :
    (processNextResumeData [some 7, none, some 9]).1.length = 3 - 1
      ∧ (processNextResumeData [some 7, none, some 9]).2 = 1
      ∧ (processNextResumeData [some 7, none, some 9]).1
          = ([some 7, none, some 9] : List ResumeEntry).filterMap
              (fun x => x) :=
  startup_one_corrupted_entry [some 7, none, some 9] 3 (by decide) (by decide)

/-! ## StorageMoveCoordinator (claims C3 and C4)

Modelled from the spec: `Session::moveTorrentStorage` and
`Session::handleMoveTorrentStorageJobFinished` (declared at
`session.h` lines 754-755, implementation missing from src).  Spec
section 4.6: one job queue per torrent; `enqueue` appends; at most one
move request in flight per torrent; the next queued job of a torrent is
issued only after the engine confirms completion or failure of the
current one; jobs on different torrents have no mutual ordering
constraint. -/

/-- Storage-move job (`session.h` struct `MoveStorageJob`): target path
and move mode; the torrent it belongs to is the key it is filed
under. -/
structure MoveStorageJob where
  path : String
  mode : Nat
deriving DecidableEq, Repr

/-- Pointwise update of a per-torrent table. -/
def updFn {α : Type} (f : TorrentID → α) (a : TorrentID) (v : α) :
    TorrentID → α :=
  fun b => if b = a then v else f b

/-- Move-coordinator state: per-torrent waiting queues, per-torrent
in-flight request, and append-only logs of enqueued jobs, issued engine
move requests and per-torrent confirmation counts. -/
structure MoveCoordinator where
  pending : TorrentID → List MoveStorageJob
  inflight : TorrentID → Option MoveStorageJob
  issuedLog : List (TorrentID × MoveStorageJob)
  enqueuedLog : List (TorrentID × MoveStorageJob)
  finishedCount : TorrentID → Nat

/-- Coordinator state before any job is enqueued. -/
def initMoveCoordinator : MoveCoordinator :=
  { pending := fun _ => [], inflight := fun _ => none,
    issuedLog := [], enqueuedLog := [], finishedCount := fun _ => 0 }

/-- Events driving the coordinator: job submission and the engine's
completion or failure confirmation for a torrent's in-flight move. -/
inductive MoveEvent where
  | enqueue (id : TorrentID) (job : MoveStorageJob)
  | finished (id : TorrentID) (success : Bool)
deriving DecidableEq, Repr

/-- Modelled from the spec: job submission.  If the torrent has no move
in flight the request is issued to the engine at once; otherwise the
job waits in that torrent's queue. -/
def enqueueMoveJob (mc : MoveCoordinator) (id : TorrentID)
    (job : MoveStorageJob) : MoveCoordinator :=
  match mc.inflight id with
  | none =>
    { mc with
      inflight := updFn mc.inflight id (some job),
      issuedLog := mc.issuedLog ++ [(id, job)],
      enqueuedLog := mc.enqueuedLog ++ [(id, job)] }
  | some _ =>
    { mc with
      pending := updFn mc.pending id (mc.pending id ++ [job]),
      enqueuedLog := mc.enqueuedLog ++ [(id, job)] }

/-- Modelled from the spec:
`Session::handleMoveTorrentStorageJobFinished`.  The engine confirmed
completion or failure of the torrent's in-flight move; the next queued
job of that torrent, if any, is issued. -/
def handleMoveTorrentStorageJobFinished (mc : MoveCoordinator)
    (id : TorrentID) : MoveCoordinator :=
  match mc.inflight id with
  | none => mc
  | some _ =>
    match mc.pending id with
    | [] =>
      { mc with
        inflight := updFn mc.inflight id none,
        finishedCount := updFn mc.finishedCount id (mc.finishedCount id + 1) }
    | j :: rest =>
      { mc with
        inflight := updFn mc.inflight id (some j),
        pending := updFn mc.pending id rest,
        issuedLog := mc.issuedLog ++ [(id, j)],
        finishedCount := updFn mc.finishedCount id (mc.finishedCount id + 1) }

/-- One step of the move coordinator; a failure confirmation advances
the queue exactly like a success. -/
def stepMove (mc : MoveCoordinator) : MoveEvent → MoveCoordinator
  | .enqueue id job => enqueueMoveJob mc id job
  | .finished id _ => handleMoveTorrentStorageJobFinished mc id

/-- Coordinator state after a trace of events from the empty state. -/
def runMove (evs : List MoveEvent) : MoveCoordinator :=
  evs.foldl stepMove initMoveCoordinator

/-- Jobs recorded in a log for the given torrent, in log order. -/
def jobsFor (log : List (TorrentID × MoveStorageJob)) (id : TorrentID) :
    List MoveStorageJob :=
  (log.filter (fun p => p.1 == id)).map Prod.snd

/-- Move requests issued to the engine for the given torrent, in issue
order. -/
def issuedFor (mc : MoveCoordinator) (id : TorrentID) : List MoveStorageJob :=
  jobsFor mc.issuedLog id

/-- Jobs submitted for the given torrent, in submission order. -/
def enqueuedFor (mc : MoveCoordinator) (id : TorrentID) :
    List MoveStorageJob :=
  jobsFor mc.enqueuedLog id

/-- Per-torrent coordinator invariant: issued requests followed by the
waiting queue reproduce the submission order; the number of issued
requests is the number of confirmations plus one exactly when a move is
in flight; an idle torrent has an empty waiting queue. -/
def MoveInv (mc : MoveCoordinator) : Prop :=
  ∀ id, issuedFor mc id ++ mc.pending id = enqueuedFor mc id
    ∧ (issuedFor mc id).length = mc.finishedCount id
        + (if (mc.inflight id).isSome then 1 else 0)
    ∧ ((mc.inflight id).isNone → mc.pending id = [])

theorem jobsFor_append (log : List (TorrentID × MoveStorageJob))
    (i : TorrentID) (j : MoveStorageJob) (id : TorrentID) :
    jobsFor (log ++ [(i, j)]) id
      = jobsFor log id ++ (if i = id then [j] else []) := by
  unfold jobsFor
  rw [List.filter_append, List.map_append]
  by_cases h : i = id <;> simp [h]

theorem updFn_same {α : Type} (f : TorrentID → α) (a : TorrentID) (v : α) :
    updFn f a v a = v := by
  simp [updFn]

theorem updFn_other {α : Type} (f : TorrentID → α) (a b : TorrentID) (v : α)
    (h : b ≠ a) : updFn f a v b = f b := by
  simp [updFn, h]

theorem moveInv_enqueue (mc : MoveCoordinator) (i : TorrentID)
    (job : MoveStorageJob) (h : MoveInv mc) :
    MoveInv (enqueueMoveJob mc i job) := by
  unfold enqueueMoveJob
  cases hin : mc.inflight i with
  | none =>
    intro id
    obtain ⟨he, hl, hn⟩ := h id
    unfold issuedFor enqueuedFor at he
    unfold issuedFor at hl
    by_cases hid : i = id
    · subst hid
      have hpend : mc.pending i = [] := hn (by rw [hin]; rfl)
      rw [hpend, List.append_nil] at he
      refine ⟨?_, ?_, ?_⟩
      · show jobsFor (mc.issuedLog ++ [(i, job)]) i ++ mc.pending i
          = jobsFor (mc.enqueuedLog ++ [(i, job)]) i
        rw [jobsFor_append, jobsFor_append, hpend]
        simp [he]
      · show (jobsFor (mc.issuedLog ++ [(i, job)]) i).length
          = mc.finishedCount i
            + (if (updFn mc.inflight i (some job) i).isSome then 1 else 0)
        rw [hin] at hl
        rw [jobsFor_append, updFn_same]
        simp at hl
        simp [hl]
      · intro hcon
        have hcon2 : (updFn mc.inflight i (some job) i).isNone = true := hcon
        rw [updFn_same] at hcon2
        cases hcon2
    · have hid2 : id ≠ i := fun hh => hid hh.symm
      refine ⟨?_, ?_, ?_⟩
      · show jobsFor (mc.issuedLog ++ [(i, job)]) id ++ mc.pending id
          = jobsFor (mc.enqueuedLog ++ [(i, job)]) id
        rw [jobsFor_append, jobsFor_append, if_neg hid, List.append_nil,
          List.append_nil]
        exact he
      · show (jobsFor (mc.issuedLog ++ [(i, job)]) id).length
          = mc.finishedCount id
            + (if (updFn mc.inflight i (some job) id).isSome then 1 else 0)
        rw [jobsFor_append, if_neg hid, List.append_nil,
          updFn_other _ _ _ _ hid2]
        exact hl
      · intro hcon
        have hcon2 : (updFn mc.inflight i (some job) id).isNone = true := hcon
        rw [updFn_other _ _ _ _ hid2] at hcon2
        show mc.pending id = []
        exact hn hcon2
  | some j0 =>
    intro id
    obtain ⟨he, hl, hn⟩ := h id
    unfold issuedFor enqueuedFor at he
    unfold issuedFor at hl
    by_cases hid : i = id
    · subst hid
      refine ⟨?_, ?_, ?_⟩
      · show jobsFor mc.issuedLog i
            ++ updFn mc.pending i (mc.pending i ++ [job]) i
          = jobsFor (mc.enqueuedLog ++ [(i, job)]) i
        rw [updFn_same, jobsFor_append, if_pos rfl, ← List.append_assoc, he]
      · exact hl
      · intro hcon
        have hcon2 : (mc.inflight i).isNone = true := hcon
        rw [hin] at hcon2
        cases hcon2
    · have hid2 : id ≠ i := fun hh => hid hh.symm
      refine ⟨?_, ?_, ?_⟩
      · show jobsFor mc.issuedLog id
            ++ updFn mc.pending i (mc.pending i ++ [job]) id
          = jobsFor (mc.enqueuedLog ++ [(i, job)]) id
        rw [updFn_other _ _ _ _ hid2, jobsFor_append, if_neg hid,
          List.append_nil]
        exact he
      · exact hl
      · intro hcon
        have hcon2 : (mc.inflight id).isNone = true := hcon
        show updFn mc.pending i (mc.pending i ++ [job]) id = []
        rw [updFn_other _ _ _ _ hid2]
        exact hn hcon2

theorem moveInv_finished (mc : MoveCoordinator) (i : TorrentID)
    (h : MoveInv mc) :
    MoveInv (handleMoveTorrentStorageJobFinished mc i) := by
  unfold handleMoveTorrentStorageJobFinished
  cases hin : mc.inflight i with
  | none => exact h
  | some j0 =>
    cases hp : mc.pending i with
    | nil =>
      intro id
      obtain ⟨he, hl, hn⟩ := h id
      unfold issuedFor enqueuedFor at he
      unfold issuedFor at hl
      by_cases hid : i = id
      · subst hid
        refine ⟨he, ?_, ?_⟩
        · show (jobsFor mc.issuedLog i).length
            = updFn mc.finishedCount i (mc.finishedCount i + 1) i
              + (if (updFn mc.inflight i none i).isSome then 1 else 0)
          rw [hin] at hl
          rw [updFn_same, updFn_same]
          simp at hl
          simp [hl]
        · intro _
          show mc.pending i = []
          exact hp
      · have hid2 : id ≠ i := fun hh => hid hh.symm
        refine ⟨he, ?_, ?_⟩
        · show (jobsFor mc.issuedLog id).length
            = updFn mc.finishedCount i (mc.finishedCount i + 1) id
              + (if (updFn mc.inflight i none id).isSome then 1 else 0)
          rw [updFn_other _ _ _ _ hid2, updFn_other _ _ _ _ hid2]
          exact hl
        · intro hcon
          have hcon2 : (updFn mc.inflight i none id).isNone = true := hcon
          rw [updFn_other _ _ _ _ hid2] at hcon2
          show mc.pending id = []
          exact hn hcon2
    | cons jnext rest =>
      intro id
      obtain ⟨he, hl, hn⟩ := h id
      unfold issuedFor enqueuedFor at he
      unfold issuedFor at hl
      by_cases hid : i = id
      · subst hid
        refine ⟨?_, ?_, ?_⟩
        · show jobsFor (mc.issuedLog ++ [(i, jnext)]) i
              ++ updFn mc.pending i rest i
            = jobsFor mc.enqueuedLog i
          rw [jobsFor_append, if_pos rfl, updFn_same, List.append_assoc]
          rw [hp] at he
          simpa using he
        · show (jobsFor (mc.issuedLog ++ [(i, jnext)]) i).length
            = updFn mc.finishedCount i (mc.finishedCount i + 1) i
              + (if (updFn mc.inflight i (some jnext) i).isSome then 1 else 0)
          rw [hin] at hl
          rw [jobsFor_append, if_pos rfl, updFn_same, updFn_same]
          simp at hl
          simp [hl]
        · intro hcon
          have hcon2 : (updFn mc.inflight i (some jnext) i).isNone = true :=
            hcon
          rw [updFn_same] at hcon2
          cases hcon2
      · have hid2 : id ≠ i := fun hh => hid hh.symm
        refine ⟨?_, ?_, ?_⟩
        · show jobsFor (mc.issuedLog ++ [(i, jnext)]) id
              ++ updFn mc.pending i rest id
            = jobsFor mc.enqueuedLog id
          rw [jobsFor_append, if_neg hid, List.append_nil,
            updFn_other _ _ _ _ hid2]
          exact he
        · show (jobsFor (mc.issuedLog ++ [(i, jnext)]) id).length
            = updFn mc.finishedCount i (mc.finishedCount i + 1) id
              + (if (updFn mc.inflight i (some jnext) id).isSome then 1 else 0)
          rw [jobsFor_append, if_neg hid, List.append_nil,
            updFn_other _ _ _ _ hid2, updFn_other _ _ _ _ hid2]
          exact hl
        · intro hcon
          have hcon2 : (updFn mc.inflight i (some jnext) id).isNone = true :=
            hcon
          rw [updFn_other _ _ _ _ hid2] at hcon2
          show updFn mc.pending i rest id = []
          rw [updFn_other _ _ _ _ hid2]
          exact hn hcon2

theorem moveInv_step (mc : MoveCoordinator) (e : MoveEvent) (h : MoveInv mc) :
    MoveInv (stepMove mc e) := by
  cases e with
  | enqueue i job => exact moveInv_enqueue mc i job h
  | finished i success => exact moveInv_finished mc i h

theorem moveInv_init : MoveInv initMoveCoordinator := by
  intro id
  refine ⟨rfl, rfl, fun _ => rfl⟩

theorem moveInv_run (evs : List MoveEvent) : MoveInv (runMove evs) := by
  unfold runMove
  have haux : ∀ (l : List MoveEvent) (mc : MoveCoordinator), MoveInv mc →
      MoveInv (l.foldl stepMove mc) := by
    intro l
    induction l with
    | nil => exact fun mc hmc => hmc
    | cons e l ih => exact fun mc hmc => ih (stepMove mc e) (moveInv_step mc e hmc)
  exact haux evs initMoveCoordinator moveInv_init

/-- C3: in every reachable coordinator state, for every torrent, the
move requests issued to the engine followed by that torrent's waiting
queue reproduce the submission order exactly (so same-torrent jobs
execute strictly in submission order, whenever they were enqueued), and
the number of issued requests never exceeds the number of engine
confirmations plus one: at most one move request is in flight per
torrent, and the next request is issued only after the engine confirms
completion or failure of the current one. -/
theorem moves_same_torrent_serialized (evs : List MoveEvent)
    (id : TorrentID) :
    issuedFor (runMove evs) id ++ (runMove evs).pending id
        = enqueuedFor (runMove evs) id
      ∧ (issuedFor (runMove evs) id).length
          = (runMove evs).finishedCount id
            + (if ((runMove evs).inflight id).isSome then 1 else 0)
      ∧ (issuedFor (runMove evs) id).length
          ≤ (runMove evs).finishedCount id + 1 := by
  obtain ⟨h1, h2, h3⟩ := moveInv_run evs id
  refine ⟨h1, h2, ?_⟩
  rw [h2]
  split_ifs <;> omega

/-- C4: enqueuing a move job for torrent `b` while a job for a distinct
torrent `a` is in flight issues the request for `b` immediately, in the
same step, without waiting for any confirmation for `a`; the in-flight
move of `a` is untouched and no confirmation for `a` is consumed. -/
theorem moves_distinct_torrents_unordered (mc : MoveCoordinator)
    (a b : TorrentID) (ja job : MoveStorageJob) (hab : a ≠ b)
    (ha : mc.inflight a = some ja) (hb : mc.inflight b = none) :
    (enqueueMoveJob mc b job).issuedLog = mc.issuedLog ++ [(b, job)]
      ∧ (enqueueMoveJob mc b job).inflight b = some job
      ∧ (enqueueMoveJob mc b job).inflight a = some ja
      ∧ (enqueueMoveJob mc b job).finishedCount a = mc.finishedCount a := by
  unfold enqueueMoveJob
  rw [hb]
  refine ⟨rfl, ?_, ?_, rfl⟩
  · exact updFn_same _ _ _
  · show updFn mc.inflight b (some job) a = some ja
    rw [updFn_other _ _ _ _ hab]
    exact ha

/-- Witness for C4: torrent 1 has a move in flight; a job for torrent 2
is issued at once. -/
theorem moves_distinct_torrents_unordered_witness :
    (enqueueMoveJob (runMove [MoveEvent.enqueue 1 ⟨"p1", 0⟩]) 2
          ⟨"p2", 0⟩).issuedLog
        = (runMove [MoveEvent.enqueue 1 ⟨"p1", 0⟩]).issuedLog
            ++ [(2, ⟨"p2", 0⟩)]
      ∧ (enqueueMoveJob (runMove [MoveEvent.enqueue 1 ⟨"p1", 0⟩]) 2
            ⟨"p2", 0⟩).inflight 2 = some ⟨"p2", 0⟩
      ∧ (enqueueMoveJob (runMove [MoveEvent.enqueue 1 ⟨"p1", 0⟩]) 2
            ⟨"p2", 0⟩).inflight 1 = some ⟨"p1", 0⟩
      ∧ (enqueueMoveJob (runMove [MoveEvent.enqueue 1 ⟨"p1", 0⟩]) 2
            ⟨"p2", 0⟩).finishedCount 1
          = (runMove [MoveEvent.enqueue 1 ⟨"p1", 0⟩]).finishedCount 1 :=
  moves_distinct_torrents_unordered _ 1 2 ⟨"p1", 0⟩ ⟨"p2", 0⟩ (by decide)
    rfl rfl

/-! ## Automatic Torrent Management on category edits (claim C8)

Modelled from the spec: `Session::editCategory` and the save-path
resolution (implementation missing from src).  Spec section 4.5:
resolution uses the nearest ancestor category (including the category
itself) defining an override path, falling back to the session default;
subcategory paths compose ancestor-relative segments onto the nearest
defined ancestor.  Editing a category's path recomputes the paths of
every Automatic-mode torrent in that category (and its descendants when
subcategories are enabled) unless the
disable-auto-TMM-on-category-path-change flag suppresses it. -/

/-- Torrent management mode (`session.h` TMM comment block, lines
179-189). -/
inductive TorrentManagementMode where
  | manual
  | automatic
deriving DecidableEq, Repr

/-- The slice of a torrent record relevant to save-path management. -/
structure TorrentRecord where
  tid : TorrentID
  category : String
  mode : TorrentManagementMode
  savePath : String
deriving DecidableEq, Repr

/-- State of the category store and the torrents it manages. -/
structure TMMState where
  categories : List (String × CategoryOptions)
  torrents : List TorrentRecord
  defaultSavePath : String
  subcategoriesEnabled : Bool
  disableAutoTMMWhenCategorySavePathChanged : Bool
deriving DecidableEq, Repr

/-- Options of a stored category, when present. -/
def lookupCategory (cats : List (String × CategoryOptions)) (name : String) :
    Option CategoryOptions :=
  (cats.find? (fun p => p.1 == name)).map Prod.snd

/-- Compose relative segments onto a resolved ancestor path. -/
def appendSegs (p : String) (segs : List String) : String :=
  if segs.isEmpty then p else p ++ "/" ++ joinCategory segs

/-- Walk the candidate ancestors (deepest first); the first one with an
explicit save-path override wins and the remaining segments compose
onto it; otherwise the session default comes last. -/
def resolveFromAncestors (st : TMMState) (full : List String) :
    List (List String) → String
  | [] => st.defaultSavePath ++ "/" ++ joinCategory full
  | pre :: rest =>
    match (lookupCategory st.categories (joinCategory pre)).bind
        (fun o => o.savePath) with
    | some p => appendSegs p (full.drop pre.length)
    | none => resolveFromAncestors st full rest

/-- Modelled from the spec: `Session::categorySavePath` (implementation
missing from src); nearest-ancestor save-path resolution for a
category. -/
def categorySavePath (st : TMMState) (name : String) : String :=
  resolveFromAncestors st (splitCategory name)
    (ancestorSegments (splitCategory name))

/-- Recompute one torrent's save path after the given category's path
changed: only Automatic-mode torrents of that category (or of a
descendant, when subcategories are enabled) are touched. -/
def applyCategorySavePathChange (st : TMMState) (name : String)
    (t : TorrentRecord) : TorrentRecord :=
  if t.mode == TorrentManagementMode.automatic
      && (t.category == name
          || (st.subcategoriesEnabled
              && (expandCategory t.category).contains name)) then
    { t with savePath := categorySavePath st t.category }
  else t

/-- Category store with the named entry's options replaced. -/
def updatedCategories (cats : List (String × CategoryOptions)) (name : String)
    (opts : CategoryOptions) : List (String × CategoryOptions) :=
  cats.map (fun p => if p.1 == name then (p.1, opts) else p)

/-- State right after replacing the named category's options, before
any torrent is touched. -/
def editedStore (st : TMMState) (name : String) (opts : CategoryOptions) :
    TMMState :=
  { st with categories := updatedCategories st.categories name opts }

/-- Modelled from the spec: `Session::editCategory` (implementation
missing from src).  An unknown category is rejected; otherwise the
stored options are replaced and, unless the disable-auto-TMM flag is
set, the save path of every affected Automatic-mode torrent is
recomputed against the updated store. -/
def editCategory (st : TMMState) (name : String) (opts : CategoryOptions) :
    Bool × TMMState :=
  if (lookupCategory st.categories name).isNone then (false, st)
  else if st.disableAutoTMMWhenCategorySavePathChanged then
    (true, editedStore st name opts)
  else
    let st2 := editedStore st name opts
    (true, { st2 with
      torrents := st.torrents.map (applyCategorySavePathChange st2 name) })

/-- Torrent record stored under the given ID. -/
def findTorrent (l : List TorrentRecord) (tid : TorrentID) :
    Option TorrentRecord :=
  l.find? (fun t => t.tid == tid)

theorem applyCategorySavePathChange_tid (st : TMMState) (name : String)
    (t : TorrentRecord) :
    (applyCategorySavePathChange st name t).tid = t.tid := by
  unfold applyCategorySavePathChange
  split_ifs <;> rfl

theorem findTorrent_map (l : List TorrentRecord)
    (f : TorrentRecord → TorrentRecord) (hf : ∀ t, (f t).tid = t.tid)
    (tid : TorrentID) :
    findTorrent (l.map f) tid = (findTorrent l tid).map f := by
  unfold findTorrent
  rw [List.find?_map]
  have hpred : ((fun t => t.tid == tid) ∘ f) = (fun t => t.tid == tid) :=
    funext fun t => by simp [Function.comp, hf]
  rw [hpred]

theorem findTorrent_eq_of_mem_nodup (l : List TorrentRecord)
    (t : TorrentRecord) (hmem : t ∈ l)
    (hnd : (l.map (fun x => x.tid)).Nodup) :
    findTorrent l t.tid = some t := by
  induction l with
  | nil => cases hmem
  | cons a l ih =>
    rcases List.mem_cons.mp hmem with rfl | hmem2
    · unfold findTorrent
      simp
    · have hnd2 := List.nodup_cons.mp hnd
      have hne : ¬((a.tid == t.tid) = true) := by
        simp only [beq_iff_eq]
        intro heq
        refine hnd2.1 ?_
        show a.tid ∈ List.map (fun x => x.tid) l
        rw [heq]
        exact List.mem_map_of_mem (fun x => x.tid) hmem2
      unfold findTorrent at ih ⊢
      exact (List.find?_cons_of_neg l hne).trans (ih hmem2 hnd2.2)

/-- C8: editing an existing category's save path with the
disable-auto-TMM-on-category-path-change flag unset recomputes the save
path of every Automatic-mode torrent assigned to that category (or to a
descendant when subcategories are enabled), storing the path resolved
against the updated category store; with the flag set, the edit changes
no torrent at all. -/
theorem editCategory_tmm_recompute (st : TMMState) (name : String)
    (opts : CategoryOptions) (t : TorrentRecord)
    (hex : (lookupCategory st.categories name).isNone = false)
    (hnd : (st.torrents.map (fun x => x.tid)).Nodup)
    (hmem : t ∈ st.torrents)
    (hmode : t.mode = TorrentManagementMode.automatic)
    (hcat : t.category = name
      ∨ (st.subcategoriesEnabled = true ∧ name ∈ expandCategory t.category)) :
    (st.disableAutoTMMWhenCategorySavePathChanged = false →
        findTorrent ((editCategory st name opts).2).torrents t.tid
          = some { t with savePath :=
              categorySavePath (editedStore st name opts) t.category })
      ∧ (st.disableAutoTMMWhenCategorySavePathChanged = true →
          ((editCategory st name opts).2).torrents = st.torrents) := by
  have hcond : (t.mode == TorrentManagementMode.automatic
      && (t.category == name
          || (st.subcategoriesEnabled
              && (expandCategory t.category).contains name))) = true := by
    rcases hcat with hc | ⟨hs, hc⟩
    · simp [hmode, hc]
    · simp [hmode, hs, hc, List.contains]
  constructor
  · intro hflag
    unfold editCategory
    split_ifs with h1 h2
    · rw [h1] at hex
      cases hex
    · rw [hflag] at h2
      cases h2
    · rw [findTorrent_map _ _ (fun x => applyCategorySavePathChange_tid _ _ x)]
      rw [findTorrent_eq_of_mem_nodup st.torrents t hmem hnd]
      show some (applyCategorySavePathChange _ name t) = _
      unfold applyCategorySavePathChange
      have hcond2 : (t.mode == TorrentManagementMode.automatic
          && (t.category == name
              || ((editedStore st name opts).subcategoriesEnabled
                  && (expandCategory t.category).contains name))) = true := hcond
      rw [if_pos hcond2]
  · intro hflag
    unfold editCategory
    split_ifs with h1
    · rfl
    · rfl

/-- Concrete store for the C8 witness: one category with an override
path and one Automatic-mode torrent assigned to it. -/
def sampleTMMState : TMMState :=
  { categories := [("a", { savePath := some "/data/a", downloadPath := none })],
    torrents := [{ tid := 1, category := "a",
                   mode := TorrentManagementMode.automatic,
                   savePath := "/old" }],
    defaultSavePath := "/dl", subcategoriesEnabled := false,
    disableAutoTMMWhenCategorySavePathChanged := false }

/-- New options for the C8 witness edit. -/
def sampleOpts : CategoryOptions :=
  { savePath := some "/new", downloadPath := none }

/-- Witness for C8 at the concrete store: the torrent's save path is
recomputed against the updated category options. -/
theorem editCategory_tmm_recompute_witness :
    findTorrent ((editCategory sampleTMMState "a" sampleOpts).2).torrents 1
      = some { tid := 1, category := "a",
               mode := TorrentManagementMode.automatic,
               savePath := categorySavePath
                 (editedStore sampleTMMState "a" sampleOpts) "a" } :=
  (editCategory_tmm_recompute sampleTMMState "a" sampleOpts
      { tid := 1, category := "a", mode := TorrentManagementMode.automatic,
        savePath := "/old" }
      (by decide) (by decide) (by decide) rfl (Or.inl rfl)).1 rfl
